import Mathlib

/-!
Shallow embedding of `src/master.py`: an AST unnesting transformer built on
Python's `ast.NodeTransformer`.

Modelling notes.

The Python module defines a class `UnnestTransformer(ast.NodeTransformer)`
with handlers `visit_FunctionDef`, `visit_BinOp`, `visit_UnaryOp`,
`visit_Call`, `visit_Return`, plus `extract_complex_expression` and
`post_visit`, and a driver `unnest_code`.

`ast.NodeTransformer.visit` dispatches on the runtime class of the node: a
node with a `visit_<Kind>` handler is given to that handler, and any other
node goes through `generic_visit`, which visits the node's children (in
field order) and substitutes the results.  The handlers of this class do
NOT call `generic_visit` themselves (except `visit_FunctionDef`), so the
children of a `BinOp`, `UnaryOp`, `Call` or `Return` node are never
traversed.  The embedding below reproduces exactly that dispatch.

The mutable transformer object (`self.var_counter`, `self.assignments`) is
embedded as an explicit state `TState` threaded through the traversal.
Python list `append` becomes `++ [x]` on the Lean side.

The AST fragment embedded is the one the transformer inspects: `Name`,
`Constant`, `BinOp`, `UnaryOp`, `Call` (with positional and keyword
arguments) for expressions; `Assign`, `Return`, `Expr` (expression
statement), `FunctionDef` and an opaque pass-through statement for
statements.  Constants are carried as `Nat` values and operators as small
enumerations; the transformer never inspects either.  `ctx` markers on
`Name` nodes (`ast.Load()` / `ast.Store()`) are embedded because the code
constructs every synthesized `Name` with `ctx=ast.Store()`.
-/

namespace Unnest

/-- Expression context marker mirroring `ast.Load()` and `ast.Store()`. -/
inductive Ctx
  | load
  | store
  deriving DecidableEq

/-- Binary operator kinds; the transformer never inspects the operator. -/
inductive BinOpKind
  | add
  | sub
  | mul
  | pow
  deriving DecidableEq

/-- Unary operator kinds; the transformer never inspects the operator. -/
inductive UnaryOpKind
  | usub
  | uadd
  | invert
  deriving DecidableEq

/-- Expressions of the embedded `ast` fragment. -/
inductive Expr
  | name (id : String) (ctx : Ctx)
  | const (val : Nat)
  | binOp (left : Expr) (op : BinOpKind) (right : Expr)
  | unaryOp (op : UnaryOpKind) (operand : Expr)
  | call (func : Expr) (args : List Expr) (keywords : List (String × Expr))

/-- Statements of the embedded `ast` fragment.  `other` stands for any
statement kind the transformer has no handler for and that contains no
expression children. -/
inductive Stmt
  | assign (targets : List Expr) (value : Expr)
  | ret (value : Expr)
  | exprStmt (value : Expr)
  | functionDef (name : String) (params : List String) (body : List Stmt)
  | other (tag : String)

/-- The `ast.Module` root node: a list of top-level statements. -/
structure Module where
  body : List Stmt

/-- The mutable state of an `UnnestTransformer` instance:
`self.var_counter` and `self.assignments`. -/
structure TState where
  var_counter : Nat
  assignments : List Stmt

/-- The initial transformer state built by `UnnestTransformer.__init__`. -/
def initState : TState := ⟨0, []⟩

/-- Test `isinstance(node, (ast.Name, ast.Constant))`. -/
def isSimple : Expr → Bool
  | .name _ _ => true
  | .const _ => true
  | _ => false

/-- The fresh temporary identifier `f"v{counter}"`. -/
def tempName (c : Nat) : String := "v" ++ Nat.repr c

/-- The node `ast.Name(id=f"v{counter}", ctx=ast.Store())`. -/
def mkTempVar (c : Nat) : Expr := .name (tempName c) .store

/-- Embedding of `UnnestTransformer.extract_complex_expression`: mint a
temporary, record `Assign(targets=[new_var], value=node)` and return the
replacement `Name`. -/
def extract_complex_expression (s : TState) (node : Expr) : Expr × TState :=
  let new_var := mkTempVar s.var_counter
  (new_var, ⟨s.var_counter + 1, s.assignments ++ [.assign [new_var] node]⟩)

/-- Embedding of `UnnestTransformer.visit_BinOp`.  Note that the handler
does not visit the operands: it only tests them. -/
def visit_BinOp (s : TState) (left : Expr) (op : BinOpKind) (right : Expr) :
    Expr × TState :=
  if !isSimple left || !isSimple right then
    extract_complex_expression s (.binOp left op right)
  else
    (.binOp left op right, s)

/-- Embedding of `UnnestTransformer.visit_UnaryOp`. -/
def visit_UnaryOp (s : TState) (op : UnaryOpKind) (operand : Expr) :
    Expr × TState :=
  if !isSimple operand then
    extract_complex_expression s (.unaryOp op operand)
  else
    (.unaryOp op operand, s)

/-- Embedding of the `for arg in node.args` loop of
`UnnestTransformer.visit_Call`: each positional argument that is not a
`Name` or `Constant` is replaced by a fresh temporary and an `Assign` is
appended, left to right. -/
def visit_Call_args (s : TState) : List Expr → List Expr × TState
  | [] => ([], s)
  | arg :: rest =>
    if !isSimple arg then
      let new_var := mkTempVar s.var_counter
      let s1 : TState :=
        ⟨s.var_counter + 1, s.assignments ++ [.assign [new_var] arg]⟩
      let (rest', s2) := visit_Call_args s1 rest
      (new_var :: rest', s2)
    else
      let (rest', s2) := visit_Call_args s rest
      (arg :: rest', s2)

/-- Embedding of `UnnestTransformer.visit_Call`: only `node.args` is
rebuilt; `node.func` and `node.keywords` are left untouched. -/
def visit_Call (s : TState) (func : Expr) (args : List Expr)
    (keywords : List (String × Expr)) : Expr × TState :=
  let (new_args, s') := visit_Call_args s args
  (.call func new_args keywords, s')

/-- Embedding of `UnnestTransformer.visit_Return`: a return value that is
not a `Name` or `Constant` is moved into a pending `Assign` and replaced
by the fresh temporary. -/
def visit_Return (s : TState) (value : Expr) : Stmt × TState :=
  if !isSimple value then
    let new_var := mkTempVar s.var_counter
    (.ret new_var,
     ⟨s.var_counter + 1, s.assignments ++ [.assign [new_var] value]⟩)
  else
    (.ret value, s)

/-- Embedding of `NodeTransformer.visit` on expression nodes: `BinOp`,
`UnaryOp` and `Call` go to their handlers (which do not recurse); `Name`
and `Constant` have no handler and no expression children, so
`generic_visit` leaves them unchanged. -/
def visitExpr (s : TState) : Expr → Expr × TState
  | .name i c => (.name i c, s)
  | .const v => (.const v, s)
  | .binOp l op r => visit_BinOp s l op r
  | .unaryOp op o => visit_UnaryOp s op o
  | .call f args kws => visit_Call s f args kws

/-- Visit a list of expression children in order (as `generic_visit` does
for a list-valued field such as `Assign.targets`). -/
def visitExprList (s : TState) : List Expr → List Expr × TState
  | [] => ([], s)
  | e :: rest =>
    let (e', s1) := visitExpr s e
    let (rest', s2) := visitExprList s1 rest
    (e' :: rest', s2)

mutual

/-- Embedding of `NodeTransformer.visit` on statement nodes.  `Return` and
`FunctionDef` have handlers; `Assign` and expression statements have none,
so `generic_visit` visits their expression children in field order
(`targets` before `value` for `Assign`).  The `functionDef` case embeds
`UnnestTransformer.visit_FunctionDef`: the counter and the
pending-assignment list are reset (`self.var_counter = 0`,
`self.assignments = []`), then `generic_visit` rewrites the body
statements in order. -/
def visitStmt (s : TState) : Stmt → Stmt × TState
  | .assign targets value =>
    let (targets', s1) := visitExprList s targets
    let (value', s2) := visitExpr s1 value
    (.assign targets' value', s2)
  | .ret value => visit_Return s value
  | .exprStmt value =>
    let (value', s1) := visitExpr s value
    (.exprStmt value', s1)
  | .functionDef name params body =>
    let s0 : TState := ⟨0, []⟩
    let (body', s') := visitStmtList s0 body
    (.functionDef name params body', s')
  | .other tag => (.other tag, s)
termination_by structural st => st

/-- Visit the statements of a statement-list field in order, threading the
transformer state. -/
def visitStmtList (s : TState) : List Stmt → List Stmt × TState
  | [] => ([], s)
  | st :: rest =>
    let (st', s1) := visitStmt s st
    let (rest', s2) := visitStmtList s1 rest
    (st' :: rest', s2)
termination_by structural l => l

end

/-- Embedding of `UnnestTransformer.visit_FunctionDef` as a standalone
function (the `functionDef` case of `visitStmt` is definitionally this):
the transformer state is reset and the body is rewritten in order,
ignoring the incoming state. -/
def visit_FunctionDef (s : TState) (name : String) (params : List String)
    (body : List Stmt) : Stmt × TState :=
  let s0 : TState := ⟨0, []⟩
  let (body', s') := visitStmtList s0 body
  (.functionDef name params body', s')

/-- Embedding of `NodeTransformer.visit` on the `Module` root: no
`visit_Module` handler exists, so `generic_visit` rewrites the top-level
statements in order. -/
def visitModule (s : TState) (m : Module) : Module × TState :=
  let (body', s') := visitStmtList s m.body
  (⟨body'⟩, s')

/-- Wrapper for an arbitrary AST node, used to embed `post_visit`, whose
parameter may be any node (`unnest_code` passes the `Module` root). -/
inductive Node
  | expr (e : Expr)
  | stmt (st : Stmt)
  | module (m : Module)

/-- Embedding of `UnnestTransformer.post_visit`: only when the node is a
`FunctionDef` (`isinstance(node, ast.FunctionDef)`) is the pending
assignment list prepended to its body; every other node, the `Module`
root included, is returned unchanged. -/
def post_visit (s : TState) : Node → Node
  | .stmt (.functionDef name params body) =>
    .stmt (.functionDef name params (s.assignments ++ body))
  | node => node

/-- The tree-transformation part of `unnest_code` on a parsed module:
`transformer.visit(tree)` then `transformer.post_visit(new_tree)`. -/
def pipeline (tree : Module) : Node :=
  let (t1, s) := visitModule initState tree
  post_visit s (.module t1)

/-- Result of `unnest_code`: the returned string and the lines printed to
the log channel. -/
structure RunResult where
  output : String
  log : List String
  deriving DecidableEq

/-- Embedding of `unnest_code`.  `ast.parse` and `astor.to_source` are
external library calls, abstracted as fallible arguments; the `try` block
catches any failure of either stage, prints a message and returns the
empty string. -/
def unnest_code (parse : String → Except String Module)
    (render : Module → Except String String) (code : String) : RunResult :=
  match parse code with
  | .error e => ⟨"", ["error: " ++ e]⟩
  | .ok tree =>
    match pipeline tree with
    | .module m =>
      match render m with
      | .error e => ⟨"", ["error: " ++ e]⟩
      | .ok text => ⟨text, []⟩
    | _ => ⟨"", ["error: unexpected node"]⟩

/-- Observe the keyword-argument list of a `Call` node. -/
def keywordsOf : Expr → List (String × Expr)
  | .call _ _ kws => kws
  | _ => []

/-- Check that every operand position the transformer's handlers test is
already simple: both operands of every `BinOp`, the operand of every
`UnaryOp`, and every positional and keyword argument of every `Call`.
Callees are only checked recursively (the handlers never test them). -/
def exprAllSimple : Expr → Bool
  | .name _ _ => true
  | .const _ => true
  | .binOp l _ r => isSimple l && isSimple r
  | .unaryOp _ o => isSimple o
  | .call f args kws =>
    exprAllSimple f && args.all isSimple && kws.all fun kv => isSimple kv.2

mutual

/-- Statement-level version of `exprAllSimple`: every expression position
in the statement (for a `FunctionDef`, in its body) is already in
simple-operand form and every `Return` value is simple. -/
def stmtAllSimple : Stmt → Bool
  | .assign targets value => targets.all exprAllSimple && exprAllSimple value
  | .ret value => isSimple value
  | .exprStmt value => exprAllSimple value
  | .functionDef _ _ body => stmtListAllSimple body
  | .other _ => true

/-- Conjunction of `stmtAllSimple` over a statement list. -/
def stmtListAllSimple : List Stmt → Bool
  | [] => true
  | st :: rest => stmtAllSimple st && stmtListAllSimple rest

end

/-- Test that a statement is not a `FunctionDef`; the spec places nested
function scopes outside the transform's domain (§1 non-goals). -/
def isFDFree : Stmt → Bool
  | .functionDef _ _ _ => false
  | _ => true

mutual

/-- Identifiers of all `Name` nodes occurring in an expression. -/
def exprIdents : Expr → List String
  | .name i _ => [i]
  | .const _ => []
  | .binOp l _ r => exprIdents l ++ exprIdents r
  | .unaryOp _ o => exprIdents o
  | .call f args kws => exprIdents f ++ exprListIdents args ++ kwIdents kws

/-- Identifier collection over a list of expressions. -/
def exprListIdents : List Expr → List String
  | [] => []
  | e :: rest => exprIdents e ++ exprListIdents rest

/-- Identifier collection over keyword arguments. -/
def kwIdents : List (String × Expr) → List String
  | [] => []
  | kv :: rest => exprIdents kv.2 ++ kwIdents rest

end

mutual

/-- Identifiers of all `Name` nodes (plus declared parameters) occurring
in a statement. -/
def stmtIdents : Stmt → List String
  | .assign targets value => exprListIdents targets ++ exprIdents value
  | .ret value => exprIdents value
  | .exprStmt value => exprIdents value
  | .functionDef _ params body => params ++ stmtListIdents body
  | .other _ => []

/-- Identifier collection over a statement list. -/
def stmtListIdents : List Stmt → List String
  | [] => []
  | st :: rest => stmtIdents st ++ stmtListIdents rest

end

/-- Identifiers of the `Name` nodes in a target list. -/
def nameIdsOf : List Expr → List String
  | [] => []
  | .name i _ :: rest => i :: nameIdsOf rest
  | _ :: rest => nameIdsOf rest

/-- Assignment-target identifiers of the `Assign` statements of a list,
in order; on the pending list these are exactly the synthesized
temporary names. -/
def targetIds : List Stmt → List String
  | [] => []
  | .assign targets _ :: rest => nameIdsOf targets ++ targetIds rest
  | _ :: rest => targetIds rest

/-- The statement list is a block of single-target temporary assignments
whose targets are `tempName c`, `tempName (c+1)`, … in order. -/
def mintedBlock (c : Nat) : List Stmt → Prop
  | [] => True
  | st :: rest =>
    (∃ e, st = Stmt.assign [mkTempVar c] e) ∧ mintedBlock (c + 1) rest

/-- State evolution across one traversal step: the counter advances by
the number of newly minted temporaries and the new pending assignments
are appended at the end as a minted block. -/
def StepsTo (s s' : TState) : Prop :=
  ∃ L, s' = ⟨s.var_counter + L.length, s.assignments ++ L⟩ ∧
    mintedBlock s.var_counter L

/-- Decimal value of a digit character; inverse of `Nat.digitChar` on
digits below ten. -/
def charToDigit (c : Char) : Nat :=
  if c = '0' then 0 else if c = '1' then 1 else if c = '2' then 2 else
  if c = '3' then 3 else if c = '4' then 4 else if c = '5' then 5 else
  if c = '6' then 6 else if c = '7' then 7 else if c = '8' then 8 else 9

/-- Decimal value of a most-significant-first digit-character list; a
left inverse of `Nat.toDigits 10`, used to show `Nat.repr` is
injective so distinct counters always mint distinct temporaries. -/
def decDigitsVal (l : List Char) : Nat :=
  l.foldl (fun a c => 10 * a + charToDigit c) 0

/-- Shorthand for a `Name` node in load context, as produced by
`ast.parse` for an identifier use. -/
def nmL (i : String) : Expr := .name i .load


/-! ### Injectivity of `Nat.repr`

The transformer mints identifiers as `f"v{self.var_counter}"` with a
strictly increasing counter.  For the freshness claims we need that
distinct counters give distinct strings, i.e. that `Nat.repr` is
injective; this is proved by building an explicit decimal decoder. -/

theorem toDigitsCore_acc :
    ∀ (fuel n : Nat) (ds : List Char),
      Nat.toDigitsCore 10 fuel n ds = Nat.toDigitsCore 10 fuel n [] ++ ds
  | 0, _, _ => rfl
  | fuel + 1, n, ds => by
    simp only [Nat.toDigitsCore]
    by_cases h : n / 10 = 0
    · simp [h]
    · simp only [h, ite_false]
      rw [toDigitsCore_acc fuel (n / 10) (Nat.digitChar (n % 10) :: ds),
        toDigitsCore_acc fuel (n / 10) [Nat.digitChar (n % 10)]]
      simp

theorem charToDigit_digitChar : ∀ d : Nat, d < 10 → charToDigit (Nat.digitChar d) = d := by
  decide

theorem decDigitsVal_append_singleton (l : List Char) (c : Char) :
    decDigitsVal (l ++ [c]) = 10 * decDigitsVal l + charToDigit c := by
  simp [decDigitsVal, List.foldl_append]

theorem decDigitsVal_toDigitsCore :
    ∀ (fuel n : Nat), n ≤ fuel →
      decDigitsVal (Nat.toDigitsCore 10 fuel n []) = n
  | 0, n, h => by
    have hn : n = 0 := Nat.le_zero.mp h
    subst hn; rfl
  | fuel + 1, n, _h => by
    simp only [Nat.toDigitsCore]
    by_cases h0 : n / 10 = 0
    · simp only [h0, ite_true]
      have hn : n < 10 := by omega
      have hd := charToDigit_digitChar (n % 10) (Nat.mod_lt n (by norm_num))
      simp [decDigitsVal, hd]
      omega
    · simp only [h0, ite_false]
      rw [toDigitsCore_acc, decDigitsVal_append_singleton]
      have hle : n / 10 ≤ fuel := by omega
      rw [decDigitsVal_toDigitsCore fuel (n / 10) hle,
        charToDigit_digitChar (n % 10) (Nat.mod_lt n (by norm_num))]
      omega

theorem data_append (s t : String) : (s ++ t).data = s.data ++ t.data := by
  rcases s with ⟨l⟩; rcases t with ⟨m⟩; rfl

theorem repr_injective : ∀ m n : Nat, Nat.repr m = Nat.repr n → m = n := by
  intro m n h
  have hd : Nat.toDigits 10 m = Nat.toDigits 10 n := by
    have hdata := congrArg String.data h
    simp only [Nat.repr, List.asString] at hdata
    exact hdata
  have h1 := decDigitsVal_toDigitsCore (m + 1) m (Nat.le_succ m)
  have h2 := decDigitsVal_toDigitsCore (n + 1) n (Nat.le_succ n)
  simp only [Nat.toDigits] at hd
  rw [← h1, ← h2, hd]

theorem tempName_data (i : Nat) : (tempName i).data = 'v' :: (Nat.repr i).data := by
  rw [tempName, data_append]; rfl

theorem tempName_inj : ∀ a b : Nat, tempName a = tempName b → a = b := by
  intro a b h
  apply repr_injective
  have hd := congrArg String.data h
  rw [tempName_data, tempName_data] at hd
  have hdata : (Nat.repr a).data = (Nat.repr b).data := by
    injection hd
  exact String.ext hdata

theorem tempName_ne (x : String) (hx : x.data.head? ≠ some 'v') (i : Nat) :
    tempName i ≠ x := by
  intro h
  apply hx
  rw [← h, tempName_data]
  rfl


/-! ### Minted-block structure of the pending assignment list -/


theorem mintedBlock_append :
    ∀ (L1 L2 : List Stmt) (c : Nat), mintedBlock c L1 →
      mintedBlock (c + L1.length) L2 → mintedBlock c (L1 ++ L2)
  | [], L2, c, _, h2 => by simpa using h2
  | st :: rest, L2, c, h1, h2 => by
    obtain ⟨he, hrest⟩ := h1
    refine ⟨he, ?_⟩
    apply mintedBlock_append rest L2 (c + 1) hrest
    have e : c + 1 + rest.length = c + (st :: rest).length := by
      simp [List.length_cons]; omega
    exact e ▸ h2

theorem mintedBlock_targetIds :
    ∀ (L : List Stmt) (c : Nat), mintedBlock c L →
      targetIds L = List.map tempName (List.range' c L.length)
  | [], _, _ => rfl
  | st :: rest, c, h => by
    obtain ⟨⟨e, rfl⟩, hrest⟩ := h
    simp [targetIds, nameIdsOf, mkTempVar, List.range'_succ,
      mintedBlock_targetIds rest (c + 1) hrest]

theorem stepsTo_rfl (s : TState) : StepsTo s s :=
  ⟨[], by cases s; simp, trivial⟩

theorem stepsTo_trans {s1 s2 s3 : TState} (h12 : StepsTo s1 s2)
    (h23 : StepsTo s2 s3) : StepsTo s1 s3 := by
  obtain ⟨L1, rfl, hb1⟩ := h12
  obtain ⟨L2, rfl, hb2⟩ := h23
  refine ⟨L1 ++ L2, ?_, mintedBlock_append L1 L2 _ hb1 hb2⟩
  simp [List.length_append, Nat.add_assoc, List.append_assoc]

theorem extract_stepsTo (s : TState) (node : Expr) :
    StepsTo s (extract_complex_expression s node).2 :=
  ⟨[.assign [mkTempVar s.var_counter] node], rfl, ⟨node, rfl⟩, trivial⟩

theorem visit_BinOp_stepsTo (s : TState) (l : Expr) (op : BinOpKind)
    (r : Expr) : StepsTo s (visit_BinOp s l op r).2 := by
  rw [visit_BinOp]
  split
  · exact extract_stepsTo s _
  · exact stepsTo_rfl s

theorem visit_UnaryOp_stepsTo (s : TState) (op : UnaryOpKind) (o : Expr) :
    StepsTo s (visit_UnaryOp s op o).2 := by
  rw [visit_UnaryOp]
  split
  · exact extract_stepsTo s _
  · exact stepsTo_rfl s

theorem visit_Return_stepsTo (s : TState) (v : Expr) :
    StepsTo s (visit_Return s v).2 := by
  rw [visit_Return]
  split
  · exact ⟨[.assign [mkTempVar s.var_counter] v], rfl, ⟨v, rfl⟩, trivial⟩
  · exact stepsTo_rfl s

theorem visit_Call_args_stepsTo :
    ∀ (args : List Expr) (s : TState), StepsTo s (visit_Call_args s args).2
  | [], s => stepsTo_rfl s
  | arg :: rest, s => by
    by_cases h : isSimple arg
    · rcases hve : visit_Call_args s rest with ⟨rest', s2⟩
      have ih := visit_Call_args_stepsTo rest s
      rw [hve] at ih
      simpa [visit_Call_args, h, hve] using ih
    · have h1 : StepsTo s (⟨s.var_counter + 1,
          s.assignments ++ [.assign [mkTempVar s.var_counter] arg]⟩ : TState) :=
        ⟨[.assign [mkTempVar s.var_counter] arg], rfl, ⟨arg, rfl⟩, trivial⟩
      rcases hve : visit_Call_args
          ⟨s.var_counter + 1,
            s.assignments ++ [.assign [mkTempVar s.var_counter] arg]⟩ rest
        with ⟨rest', s2⟩
      have ih := visit_Call_args_stepsTo rest
        ⟨s.var_counter + 1,
          s.assignments ++ [.assign [mkTempVar s.var_counter] arg]⟩
      rw [hve] at ih
      have := stepsTo_trans h1 ih
      simpa [visit_Call_args, h, hve] using this

theorem visitExpr_stepsTo (s : TState) (e : Expr) :
    StepsTo s (visitExpr s e).2 := by
  cases e with
  | name i c => exact stepsTo_rfl s
  | const v => exact stepsTo_rfl s
  | binOp l op r => exact visit_BinOp_stepsTo s l op r
  | unaryOp op o => exact visit_UnaryOp_stepsTo s op o
  | call f args kws =>
    rcases hve : visit_Call_args s args with ⟨args', s2⟩
    have := visit_Call_args_stepsTo args s
    rw [hve] at this
    simpa [visitExpr, visit_Call, hve] using this

theorem visitExprList_stepsTo :
    ∀ (es : List Expr) (s : TState), StepsTo s (visitExprList s es).2
  | [], s => stepsTo_rfl s
  | e :: rest, s => by
    rcases he : visitExpr s e with ⟨e', s1⟩
    rcases hrest : visitExprList s1 rest with ⟨rest', s2⟩
    have h1 := visitExpr_stepsTo s e
    rw [he] at h1
    have h2 := visitExprList_stepsTo rest s1
    rw [hrest] at h2
    have := stepsTo_trans h1 h2
    simpa [visitExprList, he, hrest] using this

theorem visitStmt_stepsTo (s : TState) (st : Stmt)
    (h : isFDFree st = true) : StepsTo s (visitStmt s st).2 := by
  cases st with
  | assign targets value =>
    rcases ht : visitExprList s targets with ⟨targets', s1⟩
    rcases hv : visitExpr s1 value with ⟨value', s2⟩
    have h1 := visitExprList_stepsTo targets s
    rw [ht] at h1
    have h2 := visitExpr_stepsTo s1 value
    rw [hv] at h2
    have := stepsTo_trans h1 h2
    simpa [visitStmt, ht, hv] using this
  | ret value => simpa [visitStmt] using visit_Return_stepsTo s value
  | exprStmt value =>
    rcases hv : visitExpr s value with ⟨value', s1⟩
    have h1 := visitExpr_stepsTo s value
    rw [hv] at h1
    simpa [visitStmt, hv] using h1
  | functionDef n ps body => simp [isFDFree] at h
  | other tag => simpa [visitStmt] using stepsTo_rfl s

theorem visitStmtList_stepsTo :
    ∀ (stmts : List Stmt) (s : TState), stmts.all isFDFree = true →
      StepsTo s (visitStmtList s stmts).2
  | [], s, _ => by simpa [visitStmtList] using stepsTo_rfl s
  | st :: rest, s, h => by
    rw [List.all_cons, Bool.and_eq_true] at h
    rcases hst : visitStmt s st with ⟨st', s1⟩
    rcases hrest : visitStmtList s1 rest with ⟨rest', s2⟩
    have h1 := visitStmt_stepsTo s st h.1
    rw [hst] at h1
    have h2 := visitStmtList_stepsTo rest s1 h.2
    rw [hrest] at h2
    have := stepsTo_trans h1 h2
    simpa [visitStmtList, hst, hrest] using this

/-! ### Identity of the transform on already-simple input -/


theorem visit_Call_args_id :
    ∀ (args : List Expr) (s : TState), args.all isSimple = true →
      visit_Call_args s args = (args, s)
  | [], s, _ => rfl
  | arg :: rest, s, h => by
    rw [List.all_cons, Bool.and_eq_true] at h
    simp [visit_Call_args, h.1, visit_Call_args_id rest s h.2]

theorem visitExpr_id (s : TState) (e : Expr)
    (h : exprAllSimple e = true) : visitExpr s e = (e, s) := by
  cases e with
  | name i c => rfl
  | const v => rfl
  | binOp l op r =>
    rw [exprAllSimple, Bool.and_eq_true] at h
    simp [visitExpr, visit_BinOp, h.1, h.2]
  | unaryOp op o =>
    rw [exprAllSimple] at h
    simp [visitExpr, visit_UnaryOp, h]
  | call f args kws =>
    rw [exprAllSimple, Bool.and_eq_true, Bool.and_eq_true] at h
    simp [visitExpr, visit_Call, visit_Call_args_id args s h.1.2]

theorem visitExprList_id :
    ∀ (es : List Expr) (s : TState), es.all exprAllSimple = true →
      visitExprList s es = (es, s)
  | [], s, _ => rfl
  | e :: rest, s, h => by
    rw [List.all_cons, Bool.and_eq_true] at h
    simp [visitExprList, visitExpr_id s e h.1, visitExprList_id rest s h.2]

mutual

theorem visitStmt_id :
    ∀ (st : Stmt), stmtAllSimple st = true →
      visitStmt ⟨0, []⟩ st = (st, ⟨0, []⟩)
  | .assign targets value, h => by
    rw [stmtAllSimple, Bool.and_eq_true] at h
    simp [visitStmt, visitExprList_id targets ⟨0, []⟩ h.1,
      visitExpr_id (⟨0, []⟩ : TState) value h.2]
  | .ret value, h => by
    rw [stmtAllSimple] at h
    simp [visitStmt, visit_Return, h]
  | .exprStmt value, h => by
    rw [stmtAllSimple] at h
    simp [visitStmt, visitExpr_id (⟨0, []⟩ : TState) value h]
  | .functionDef n ps body, h => by
    rw [stmtAllSimple] at h
    simp [visitStmt, visit_FunctionDef, visitStmtList_id body h]
  | .other tag, _ => by simp [visitStmt]

theorem visitStmtList_id :
    ∀ (l : List Stmt), stmtListAllSimple l = true →
      visitStmtList ⟨0, []⟩ l = (l, ⟨0, []⟩)
  | [], _ => by simp [visitStmtList]
  | st :: rest, h => by
    rw [stmtListAllSimple, Bool.and_eq_true] at h
    simp [visitStmtList, visitStmt_id st h.1, visitStmtList_id rest h.2]

end

/-! ### Claims -/


/-- Claim C1.  The claim states that all pending temporary assignments of a
FunctionUnit are inserted exactly once, as a contiguous block, at the very
start of that unit's statement sequence in the output.  The code never
does this: `post_visit` prepends `self.assignments` only when its argument
is an `ast.FunctionDef`, but `unnest_code` calls it once on the `Module`
root, so the check always fails.  On `def f(a): return a + a` the visit
phase rewrites the body to `return v0` and leaves `v0 = a + a` pending,
and the pipeline output still has body `[return v0]`: the pending block is
silently dropped and `v0` is never defined. -/
theorem C1_pending_block_never_inserted :
    visitModule initState
        ⟨[.functionDef "f" ["a"] [.ret (.binOp (nmL "a") .add (nmL "a"))]]⟩ =
      (⟨[.functionDef "f" ["a"] [.ret (mkTempVar 0)]]⟩,
       ⟨1, [.assign [mkTempVar 0] (.binOp (nmL "a") .add (nmL "a"))]⟩) ∧
    pipeline ⟨[.functionDef "f" ["a"] [.ret (.binOp (nmL "a") .add (nmL "a"))]]⟩ =
      .module ⟨[.functionDef "f" ["a"] [.ret (mkTempVar 0)]]⟩ := by
  constructor <;>
    simp [pipeline, post_visit, visitModule, visitStmtList, visitStmt,
      visit_FunctionDef, visit_Return, visitExpr, visit_BinOp, visit_UnaryOp,
      visit_Call, visit_Call_args, extract_complex_expression, isSimple,
      initState]

/-- Claim C2.  The claim states that in the output tree every `BinaryOp`
operand, `UnaryOp` operand and `Call` argument (positional and keyword) is
a `Name` or `Constant`.  The code never visits `node.keywords` (the
`visit_Call` loop runs over `node.args` only), so on
`def f(a, b): g(k=a + b)` the whole tree passes through unchanged and the
output still contains a `Call` whose keyword argument is a `BinaryOp`. -/
theorem C2_keyword_argument_left_compound :
    pipeline ⟨[.functionDef "f" ["a", "b"]
        [.exprStmt (.call (nmL "g") []
          [("k", .binOp (nmL "a") .add (nmL "b"))])]]⟩ =
      .module ⟨[.functionDef "f" ["a", "b"]
        [.exprStmt (.call (nmL "g") []
          [("k", .binOp (nmL "a") .add (nmL "b"))])]]⟩ ∧
    isSimple (.binOp (nmL "a") .add (nmL "b")) = false := by
  constructor <;>
    simp [pipeline, post_visit, visitModule, visitStmtList, visitStmt,
      visit_FunctionDef, visit_Return, visitExpr, visit_BinOp, visit_UnaryOp,
      visit_Call, visit_Call_args, extract_complex_expression, isSimple,
      initState]

/-- Claim C3, counterexample.  The claim states that the rewrite is a
depth-first post-order traversal in which each node's children are fully
rewritten before the node itself is inspected, with child extractions
preceding parent extractions in the pending list.  On the single statement
`p = x*y + z` the code synthesizes exactly one assignment, whose value
still contains the compound child `x*y` un-rewritten; under the claimed
post-order discipline `x*y` would have been extracted first and every
pending value would have only simple operands. -/
theorem C3_no_postorder_counterexample :
    visitStmt initState
        (.assign [.name "p" .store]
          (.binOp (.binOp (nmL "x") .mul (nmL "y")) .add (nmL "z"))) =
      (.assign [.name "p" .store] (mkTempVar 0),
       ⟨1, [.assign [mkTempVar 0]
          (.binOp (.binOp (nmL "x") .mul (nmL "y")) .add (nmL "z"))]⟩) ∧
    isSimple (.binOp (nmL "x") .mul (nmL "y")) = false := by
  constructor <;>
    simp [visitStmt, visitExprList, visitExpr, visit_BinOp, visit_UnaryOp,
      visit_Call, visit_Call_args, extract_complex_expression, isSimple,
      initState]

/-- Claim C3, amended.  The traversal is top-down: the `BinOp`, `UnaryOp`
and `Return` handlers never rewrite the children of the node they extract
— the pending assignment receives the node verbatim — and synthesized
assignments are appended to the pending list in the order the handlers
fire during the walk (statements in sequence order), not in post-order
child-before-parent order. -/
theorem C3_topdown_extraction :
    (∀ (s : TState) (l : Expr) (op : BinOpKind) (r : Expr),
        (isSimple l && isSimple r) = false →
        visit_BinOp s l op r =
          (mkTempVar s.var_counter,
           ⟨s.var_counter + 1,
            s.assignments ++ [.assign [mkTempVar s.var_counter] (.binOp l op r)]⟩)) ∧
    (∀ (s : TState) (op : UnaryOpKind) (o : Expr), isSimple o = false →
        visit_UnaryOp s op o =
          (mkTempVar s.var_counter,
           ⟨s.var_counter + 1,
            s.assignments ++ [.assign [mkTempVar s.var_counter] (.unaryOp op o)]⟩)) ∧
    (∀ (s : TState) (v : Expr), isSimple v = false →
        visit_Return s v =
          (.ret (mkTempVar s.var_counter),
           ⟨s.var_counter + 1,
            s.assignments ++ [.assign [mkTempVar s.var_counter] v]⟩)) ∧
    visitStmtList initState
        [.assign [.name "p" .store]
           (.binOp (.binOp (nmL "x") .mul (nmL "y")) .add (nmL "z")),
         .ret (.binOp (nmL "u") .add (.binOp (nmL "x") .mul (nmL "y")))] =
      ([.assign [.name "p" .store] (mkTempVar 0), .ret (mkTempVar 1)],
       ⟨2, [.assign [mkTempVar 0]
              (.binOp (.binOp (nmL "x") .mul (nmL "y")) .add (nmL "z")),
            .assign [mkTempVar 1]
              (.binOp (nmL "u") .add (.binOp (nmL "x") .mul (nmL "y")))]⟩) := by
  refine ⟨?_, ?_, ?_, ?_⟩
  · intro s l op r h
    have hc : (!isSimple l || !isSimple r) = true := by
      cases hl : isSimple l <;> cases hr : isSimple r <;> simp_all
    simp [visit_BinOp, hc, extract_complex_expression]
  · intro s op o h
    simp [visit_UnaryOp, h, extract_complex_expression]
  · intro s v h
    simp [visit_Return, h]
  · simp [visitStmtList, visitStmt, visitExprList, visitExpr, visit_BinOp,
      visit_UnaryOp, visit_Return, visit_Call, visit_Call_args,
      extract_complex_expression, isSimple, initState]

/-- Witness for C3: the amended extraction shape at a concrete input with
a compound left operand. -/
theorem C3_topdown_extraction_witness :
    visit_BinOp initState (.binOp (nmL "x") .mul (nmL "y")) .add (nmL "z") =
      (mkTempVar 0,
       ⟨1, [.assign [mkTempVar 0]
          (.binOp (.binOp (nmL "x") .mul (nmL "y")) .add (nmL "z"))]⟩) :=
  C3_topdown_extraction.1 initState (.binOp (nmL "x") .mul (nmL "y")) .add
    (nmL "z") (by simp [isSimple])

/-- Claim C4, counterexample.  The claim states that `return f(-a, b + c)`
produces exactly two synthesized assignments (`v0 = -a`, `v1 = b + c`) and
`return f(v0, v1)`.  In fact `visit_Return` fires on the `Return` node
without ever visiting the call's arguments (`NodeTransformer` recursion
stops at handled nodes), and since the `Call` is not a `Name`/`Constant`
the whole call is extracted: exactly one assignment is synthesized. -/
theorem C4_single_assignment_counterexample :
    (visitStmt initState (.ret (.call (nmL "f")
        [.unaryOp .usub (nmL "a"), .binOp (nmL "b") .add (nmL "c")] []))).2.assignments.length
      = 1 := by
  simp [visitStmt, visit_Return, isSimple, initState]

/-- Claim C4, amended.  On `return f(-a, b + c)` the transform synthesizes
exactly one assignment, `v0 = f(-a, b + c)` with the arguments untouched,
and rewrites the statement to `return v0`; the call's arguments are not
individually extracted. -/
theorem C4_whole_call_extracted :
    visitStmt initState (.ret (.call (nmL "f")
        [.unaryOp .usub (nmL "a"), .binOp (nmL "b") .add (nmL "c")] [])) =
      (.ret (mkTempVar 0),
       ⟨1, [.assign [mkTempVar 0] (.call (nmL "f")
          [.unaryOp .usub (nmL "a"), .binOp (nmL "b") .add (nmL "c")] [])]⟩) := by
  simp [visitStmt, visit_Return, isSimple, initState]

/-- Claim C5, counterexample.  The claim states that every compound
keyword-argument value of a `Call` is extracted to a fresh temporary
exactly as positional arguments are.  On the `Call` node `h(k=a + b)` the
handler returns the node with the compound keyword value still in place
and mints nothing. -/
theorem C5_keyword_not_extracted_counterexample :
    visitExpr initState (.call (nmL "h") []
        [("k", .binOp (nmL "a") .add (nmL "b"))]) =
      (.call (nmL "h") [] [("k", .binOp (nmL "a") .add (nmL "b"))], initState) ∧
    isSimple (.binOp (nmL "a") .add (nmL "b")) = false := by
  constructor <;>
    simp [visitExpr, visit_Call, visit_Call_args, isSimple, initState]

/-- Claim C5, amended.  `visit_Call` never examines `node.keywords`: the
keyword list of a visited `Call` is passed through verbatim and
contributes nothing to the transformer state (counter and pending list),
which depend only on the positional arguments. -/
theorem C5_keywords_passed_through :
    ∀ (s : TState) (f : Expr) (args : List Expr)
      (kws : List (String × Expr)),
      keywordsOf (visitExpr s (.call f args kws)).1 = kws ∧
      (visitExpr s (.call f args kws)).2 = (visitExpr s (.call f args [])).2 := by
  intro s f args kws
  rcases hve : visit_Call_args s args with ⟨args', s2⟩
  constructor <;> simp [visitExpr, visit_Call, hve, keywordsOf]

/-- Claim C6.  `visit_FunctionDef` assigns `self.var_counter = 0` and
`self.assignments = []` before walking the body, so the result of
processing a FunctionUnit is independent of the incoming scope state, and
in a module with two functions each unit's temporaries restart at `v0`
(both bodies below refer to `v0`; the final state holds only the second
unit's pending assignment). -/
theorem C6_state_reset_per_unit :
    (∀ (s1 s2 : TState) (n : String) (ps : List String) (body : List Stmt),
        visit_FunctionDef s1 n ps body = visit_FunctionDef s2 n ps body) ∧
    visitModule initState
        ⟨[.functionDef "f" ["a"] [.ret (.binOp (nmL "a") .add (nmL "a"))],
          .functionDef "g" ["b"] [.ret (.binOp (nmL "b") .add (nmL "b"))]]⟩ =
      (⟨[.functionDef "f" ["a"] [.ret (mkTempVar 0)],
         .functionDef "g" ["b"] [.ret (mkTempVar 0)]]⟩,
       ⟨1, [.assign [mkTempVar 0] (.binOp (nmL "b") .add (nmL "b"))]⟩) := by
  constructor
  · intro s1 s2 n ps body
    simp [visit_FunctionDef]
  · simp [visitModule, visitStmtList, visitStmt, visit_FunctionDef,
      visit_Return, visitExpr, visit_BinOp, visit_UnaryOp, visit_Call,
      visit_Call_args, extract_complex_expression, isSimple, initState]

/-- Claim C8.  A FunctionUnit in which every `BinOp`/`UnaryOp` operand and
every `Call` argument (positional and keyword) is simple and every
`Return` value is simple is left structurally unchanged, and zero
assignments are synthesized (the resulting scope state is the reset
state). -/
theorem C8_identity_on_simple_unit (s : TState) (n : String)
    (ps : List String) (body : List Stmt)
    (h : stmtListAllSimple body = true) :
    visit_FunctionDef s n ps body = (.functionDef n ps body, ⟨0, []⟩) := by
  simp [visit_FunctionDef, visitStmtList_id body h]

/-- Witness for C8: the unit `def f(x): return x` is unchanged. -/
theorem C8_identity_on_simple_unit_witness :
    visit_FunctionDef initState "f" ["x"] [.ret (nmL "x")] =
      (.functionDef "f" ["x"] [.ret (nmL "x")], ⟨0, []⟩) :=
  C8_identity_on_simple_unit initState "f" ["x"] [.ret (nmL "x")]
    (by simp [stmtListAllSimple, stmtAllSimple, isSimple, nmL])

/-- Claim C9.  `unnest_code` wraps parsing, transformation and rendering
in one `try` block: if the parser fails the failure is reported on the
log channel and the empty string is returned; likewise when rendering
fails; when no stage fails the rendered transformed source is returned
with nothing logged. -/
theorem C9_failure_yields_empty_output :
    ∀ (parse : String → Except String Module)
      (render : Module → Except String String) (code : String),
      (∀ e, parse code = .error e →
        unnest_code parse render code = ⟨"", ["error: " ++ e]⟩) ∧
      (∀ tree m e, parse code = .ok tree → pipeline tree = .module m →
        render m = .error e →
        unnest_code parse render code = ⟨"", ["error: " ++ e]⟩) ∧
      (∀ tree m out, parse code = .ok tree → pipeline tree = .module m →
        render m = .ok out →
        unnest_code parse render code = ⟨out, []⟩) := by
  intro parse render code
  refine ⟨?_, ?_, ?_⟩ <;> intros <;> simp [unnest_code, *]

/-- Witness for C9: a failing parser yields the empty output with a log
line; a succeeding parser and renderer yield the rendered output with an
empty log. -/
theorem C9_failure_yields_empty_output_witness :
    unnest_code (fun _ => .error "bad") (fun _ => .ok "out") "x" =
      ⟨"", ["error: " ++ "bad"]⟩ ∧
    unnest_code (fun _ => .ok ⟨[]⟩) (fun _ => .ok "out") "x" = ⟨"out", []⟩ := by
  constructor
  · exact (C9_failure_yields_empty_output _ _ "x").1 "bad" rfl
  · exact (C9_failure_yields_empty_output _ _ "x").2.2 ⟨[]⟩ ⟨[]⟩ "out" rfl
      (by simp [pipeline, post_visit, visitModule, visitStmtList, initState])
      rfl

/-- Claim C10.  Every synthesized `Name` is constructed with
`ctx=ast.Store()`, and the same node is used both as the `Assign` target
and as the use-site replacement: the extraction result, the rewritten
`Return` value and every replaced `Call` argument slot carry `Store`
context. -/
theorem C10_synthesized_names_store_ctx :
    (∀ (s : TState) (node : Expr),
        (extract_complex_expression s node).1 =
          .name (tempName s.var_counter) .store) ∧
    (∀ (s : TState) (v : Expr), isSimple v = false →
        visit_Return s v =
          (.ret (.name (tempName s.var_counter) .store),
           ⟨s.var_counter + 1,
            s.assignments ++
              [.assign [.name (tempName s.var_counter) .store] v]⟩)) ∧
    (∀ (s : TState) (args : List Expr) (x : Expr),
        x ∈ (visit_Call_args s args).1 →
        x ∈ args ∨ ∃ i, x = .name (tempName i) .store) := by
  refine ⟨?_, ?_, ?_⟩
  · intro s node
    rfl
  · intro s v h
    simp [visit_Return, h, mkTempVar]
  · intro s args
    induction args generalizing s with
    | nil =>
      intro x hx
      simp [visit_Call_args] at hx
    | cons arg rest ih =>
      intro x hx
      by_cases h : isSimple arg
      · rcases hve : visit_Call_args s rest with ⟨rest', s2⟩
        simp [visit_Call_args, h, hve] at hx
        rcases hx with rfl | hx
        · exact Or.inl (List.mem_cons_self _ _)
        · rcases ih s x (by rw [hve]; exact hx) with hmem | hname
          · exact Or.inl (List.mem_cons_of_mem _ hmem)
          · exact Or.inr hname
      · rcases hve : visit_Call_args
            ⟨s.var_counter + 1,
              s.assignments ++
                [.assign [.name (tempName s.var_counter) .store] arg]⟩ rest
          with ⟨rest', s2⟩
        simp [visit_Call_args, h, hve, mkTempVar] at hx
        rcases hx with rfl | hx
        · exact Or.inr ⟨s.var_counter, rfl⟩
        · rcases ih ⟨s.var_counter + 1,
              s.assignments ++
                [.assign [.name (tempName s.var_counter) .store] arg]⟩ x
              (by rw [hve]; exact hx) with hmem | hname
          · exact Or.inl (List.mem_cons_of_mem _ hmem)
          · exact Or.inr hname

/-- Witness for C10: a compound `Return` value is replaced by a
`Store`-context temporary. -/
theorem C10_synthesized_names_store_ctx_witness :
    visit_Return initState (.binOp (nmL "a") .add (nmL "b")) =
      (.ret (.name (tempName 0) .store),
       ⟨1, [.assign [.name (tempName 0) .store]
          (.binOp (nmL "a") .add (nmL "b"))]⟩) :=
  C10_synthesized_names_store_ctx.2.1 initState
    (.binOp (nmL "a") .add (nmL "b")) (by simp [isSimple])

/-- Claim C7.  Within one FunctionUnit (the spec's §1 non-goals place
nested function scopes outside the transform's domain, hence the
`isFDFree` hypothesis), under the precondition that no identifier of the
form `v<N>` occurs among the parameters or in the body, the synthesized
temporary identifiers — the targets of the final pending assignments,
each of which is also the (shared) use-site replacement node — are
pairwise distinct and collide with no parameter or user-defined name. -/
theorem C7_minted_names_fresh (s : TState) (n : String) (ps : List String)
    (body : List Stmt) (hfd : body.all isFDFree = true)
    (hfresh : ∀ i : Nat, tempName i ∉ ps ∧ tempName i ∉ stmtListIdents body) :
    (targetIds (visit_FunctionDef s n ps body).2.assignments).Nodup ∧
    ∀ id ∈ targetIds (visit_FunctionDef s n ps body).2.assignments,
      id ∉ ps ∧ id ∉ stmtListIdents body := by
  obtain ⟨L, hs, hb⟩ := visitStmtList_stepsTo body ⟨0, []⟩ hfd
  have h2 : (visit_FunctionDef s n ps body).2.assignments = L := by
    rcases hve : visitStmtList ⟨0, []⟩ body with ⟨b', s'⟩
    rw [hve] at hs
    simp [visit_FunctionDef, hve, hs]
  have htids : targetIds L = List.map tempName (List.range' 0 L.length) :=
    mintedBlock_targetIds L 0 hb
  rw [h2, htids]
  constructor
  · exact (List.nodup_range' 0 L.length).map
      (fun a b hab => tempName_inj a b hab)
  · intro id hid
    obtain ⟨i, _, rfl⟩ := List.mem_map.mp hid
    exact hfresh i

/-- Witness for C7: a unit over parameter `a` with two extractions; the
minted temporary names are pairwise distinct. -/
theorem C7_minted_names_fresh_witness :
    (targetIds (visit_FunctionDef initState "f" ["a"]
        [.assign [.name "t" .store]
           (.binOp (.binOp (nmL "a") .mul (nmL "a")) .add (nmL "a")),
         .ret (.binOp (nmL "t") .add (.const 1))]).2.assignments).Nodup :=
  (C7_minted_names_fresh initState "f" ["a"]
    [.assign [.name "t" .store]
       (.binOp (.binOp (nmL "a") .mul (nmL "a")) .add (nmL "a")),
     .ret (.binOp (nmL "t") .add (.const 1))]
    (by simp [isFDFree])
    (by
      intro i
      have ha := tempName_ne "a" (by simp) i
      have ht := tempName_ne "t" (by simp) i
      constructor
      · simp [ha]
      · simp [stmtListIdents, stmtIdents, exprListIdents, exprIdents, nmL,
          ha, ht])).1

end Unnest
